import Mathlib

set_option maxRecDepth 8000

/-!
Verification of the img_to_oled.py conversion tool: a shallow embedding of
its data transformations (frame packing, aspect fitting, source-code
emitters, CLI validation) together with proofs of the specified properties.
Pixel access (img.load()) is modelled as a total function from coordinates
to the pixel value, with Python truthiness: a pixel is "on" iff its value
is nonzero.
-/

/-- Display width in pixels (source: WIDTH = 128). -/
def WIDTH : Nat := 128

/-- Display height in pixels (source: HEIGHT = 64). -/
def HEIGHT : Nat := 64

/-- Number of 8-pixel-high pages (source: PAGES = HEIGHT // 8). -/
def PAGES : Nat := HEIGHT / 8

/-- Framebuffer byte count (source: FRAMEBUFFER_SIZE = WIDTH * PAGES). -/
def FRAMEBUFFER_SIZE : Nat := WIDTH * PAGES

/-- The inner loop of image_to_framebuffer (source lines 48-52): build one
byte for column x of the given page, OR-ing bit `bit` when the pixel at
(x, page*8+bit) is truthy (nonzero). -/
def packByte (pixels : Nat → Nat → Nat) (page x : Nat) : Nat :=
  (List.range 8).foldl
    (fun byte bit => if pixels x (page * 8 + bit) ≠ 0 then byte ||| (1 <<< bit) else byte) 0

/-- image_to_framebuffer (source lines 42-55): for page in range(PAGES),
for x in range(WIDTH), append the packed byte. -/
def image_to_framebuffer (pixels : Nat → Nat → Nat) : List Nat :=
  (List.range PAGES).flatMap fun page =>
    (List.range WIDTH).map fun x => packByte pixels page x

/-- A concrete checkerboard pixel pattern, used to instantiate theorems. -/
def checker : Nat → Nat → Nat := fun x y => (x + y) % 2

/-- Bit b of the OR-accumulating fold over range n is set iff b < n and the
condition holds at b. -/
lemma testBit_orFold (cond : Nat → Prop) [DecidablePred cond] (n b : Nat) :
    Nat.testBit
      ((List.range n).foldl
        (fun byte bit => if cond bit then byte ||| (1 <<< bit) else byte) 0) b
      = (decide (b < n) && decide (cond b)) := by
  induction n with
  | zero => simp
  | succ k ih =>
    rw [List.range_succ, List.foldl_append, List.foldl_cons, List.foldl_nil]
    by_cases hc : cond k
    · rw [if_pos hc, Nat.testBit_or, ih, Nat.shiftLeft_eq, one_mul,
        Nat.testBit_two_pow]
      by_cases hbk : b = k
      · subst hbk
        simp [hc, Nat.lt_succ_self]
      · rw [decide_eq_false (Ne.symm hbk), Bool.or_false]
        have h2 : (b < k) ↔ (b < k + 1) := by omega
        simp [h2]
    · rw [if_neg hc, ih]
      have h1 : decide (cond b) = false ∨ ((b < k) ↔ (b < k + 1)) := by
        by_cases hbk : b = k
        · subst hbk; exact Or.inl (by simp [hc])
        · exact Or.inr (by omega)
      rcases h1 with h1 | h1
      · rw [h1, Bool.and_false, Bool.and_false]
      · simp [h1]

/-- The OR-accumulating fold over range n is bounded by 2 ^ n. -/
lemma orFold_lt (cond : Nat → Prop) [DecidablePred cond] (n : Nat) :
    (List.range n).foldl
      (fun byte bit => if cond bit then byte ||| (1 <<< bit) else byte) 0 < 2 ^ n := by
  induction n with
  | zero => simp
  | succ k ih =>
    rw [List.range_succ, List.foldl_append, List.foldl_cons, List.foldl_nil]
    have hk : 2 ^ k < 2 ^ (k + 1) := by
      have := Nat.pos_pow_of_pos k (show 0 < 2 by decide)
      omega
    by_cases hc : cond k
    · rw [if_pos hc]
      refine Nat.or_lt_two_pow (by omega) ?_
      rw [Nat.shiftLeft_eq, one_mul]
      exact hk
    · rw [if_neg hc]; omega

/-- Bit b of packByte is set iff b < 8 and the pixel at (x, page*8+b) is
nonzero. -/
lemma packByte_testBit (pixels : Nat → Nat → Nat) (page x b : Nat) :
    Nat.testBit (packByte pixels page x) b
      = (decide (b < 8) && decide (pixels x (page * 8 + b) ≠ 0)) :=
  testBit_orFold (fun bit => pixels x (page * 8 + bit) ≠ 0) 8 b

/-- packByte always fits in one byte. -/
lemma packByte_lt (pixels : Nat → Nat → Nat) (page x : Nat) :
    packByte pixels page x < 256 :=
  orFold_lt (fun bit => pixels x (page * 8 + bit) ≠ 0) 8

/-- Length of a page-major flatMap of per-page column maps. -/
lemma length_flatMap_range_map {α : Type} (f : Nat → Nat → α) (n m : Nat) :
    ((List.range n).flatMap fun p => (List.range m).map (f p)).length = n * m := by
  induction n with
  | zero => simp
  | succ k ih =>
    rw [List.range_succ, List.flatMap_append, List.length_append, ih,
      List.flatMap_singleton, List.length_map, List.length_range, Nat.succ_mul]

/-- Element p*m+x of a page-major flatMap of per-page column maps. -/
lemma getElem?_flatMap_range_map {α : Type} (f : Nat → Nat → α) {n m p x : Nat}
    (hp : p < n) (hx : x < m) :
    ((List.range n).flatMap fun i => (List.range m).map (f i))[p * m + x]? = some (f p x) := by
  induction n with
  | zero => omega
  | succ k ih =>
    rw [List.range_succ, List.flatMap_append]
    rcases Nat.lt_or_ge p k with h | h
    · have hlt : p * m + x < ((List.range k).flatMap fun i => (List.range m).map (f i)).length := by
        rw [length_flatMap_range_map]
        have h1 : p * m + x < (p + 1) * m := by rw [Nat.succ_mul]; omega
        have h2 : (p + 1) * m ≤ k * m := Nat.mul_le_mul_right m (by omega)
        omega
      rw [List.getElem?_append_left hlt]
      exact ih h
    · have hpk : p = k := by omega
      subst hpk
      have hlen : ((List.range p).flatMap fun i => (List.range m).map (f i)).length = p * m :=
        length_flatMap_range_map f p m
      rw [List.getElem?_append_right (by omega)]
      rw [hlen, Nat.add_sub_cancel_left, List.flatMap_singleton, List.getElem?_map,
        List.getElem?_range hx, Option.map_some']

/-- C1: for every pixel function, page p < 8 and column x < 128, the
framebuffer entry at index p*WIDTH + x is the packed byte of page p and
column x (page-major, then-column order), and bit b (b < 8) of that byte is
set iff the pixel at (x, p*8 + b) is nonzero. -/
theorem frame_packer_bit (pixels : Nat → Nat → Nat) (p x b : Nat)
    (hp : p < PAGES) (hx : x < WIDTH) (hb : b < 8) :
    (image_to_framebuffer pixels)[p * WIDTH + x]? = some (packByte pixels p x) ∧
    (Nat.testBit (packByte pixels p x) b = true ↔ pixels x (p * 8 + b) ≠ 0) := by
  constructor
  · exact getElem?_flatMap_range_map (fun page x => packByte pixels page x) hp hx
  · rw [packByte_testBit]
    simp [hb]

/-- Witness for C1: instantiation at the checkerboard pattern, page 1,
column 2, bit 3. -/
theorem frame_packer_bit_witness :
    (image_to_framebuffer checker)[1 * WIDTH + 2]? = some (packByte checker 1 2) ∧
    (Nat.testBit (packByte checker 1 2) 3 = true ↔ checker 2 (1 * 8 + 3) ≠ 0) :=
  frame_packer_bit checker 1 2 3 (by decide) (by decide) (by decide)

/-- C2: the framebuffer always has exactly FRAMEBUFFER_SIZE = 1024 bytes. -/
theorem framebuffer_length (pixels : Nat → Nat → Nat) :
    (image_to_framebuffer pixels).length = FRAMEBUFFER_SIZE := by
  unfold image_to_framebuffer FRAMEBUFFER_SIZE
  rw [length_flatMap_range_map]
  rw [Nat.mul_comm]

/-- Pixel function obtained by unpacking one framebuffer byte back into its
8 vertical pixels: bit b of the byte gives the pixel at row page*8 + b.
Modelled from the spec: the unpacking direction is not in the source; this
is the inverse reading of the packing rule stated by the round-trip
property. -/
def unpackPixels (byte page : Nat) : Nat → Nat → Nat :=
  fun _ y => if Nat.testBit byte (y - page * 8) then 1 else 0

/-- C3: re-packing the 8 vertical pixels unpacked from any byte value below
256 reproduces that byte exactly, at any page and column. -/
theorem pack_unpack_roundtrip (byte page x : Nat) (h : byte < 256) :
    packByte (unpackPixels byte page) page x = byte := by
  apply Nat.eq_of_testBit_eq
  intro i
  rw [packByte_testBit]
  by_cases hi : i < 8
  · have hsub : page * 8 + i - page * 8 = i := by omega
    simp [unpackPixels, hsub, hi]
  · have h1 : decide (i < 8) = false := by simp [hi]
    rw [h1, Bool.false_and]
    have h2 : byte < 2 ^ i := by
      have : (256 : Nat) = 2 ^ 8 := by norm_num
      calc byte < 2 ^ 8 := by omega
        _ ≤ 2 ^ i := Nat.pow_le_pow_right (by decide) (by omega)
    exact (Nat.testBit_lt_two_pow h2).symm

/-- Witness for C3: round trip at byte 0xA5, page 2, column 7. -/
theorem pack_unpack_roundtrip_witness :
    packByte (unpackPixels 165 2) 2 7 = 165 :=
  pack_unpack_roundtrip 165 2 7 (by decide)

/-- C4: an all-black bitmap packs to all 0x00 bytes; an all-white bitmap
(every pixel 255) packs to all 0xFF bytes. -/
theorem frame_packer_black_white :
    ((image_to_framebuffer fun _ _ => 0).all fun b => b == 0x00) = true ∧
    ((image_to_framebuffer fun _ _ => 255).all fun b => b == 0xFF) = true := by
  constructor
  · decide
  · decide

/-- fit_to_aspect (source lines 14-27), specialized to the only aspect ratio
used, target_aspect = 2.0. Python float arithmetic on the integer image
dimensions is modelled by exact rational arithmetic and int() truncation of
a nonnegative value by Nat.floor; both are exact for all realistic
dimensions. Returns the canvas size (new_w, new_h). -/
def fit_to_aspect (w h : Nat) : Nat × Nat :=
  if ((w : ℚ) / (h : ℚ)) > 2 then (w, Nat.floor ((w : ℚ) / 2))
  else (Nat.floor ((h : ℚ) * 2), h)

/-- The paste position of the source inside the canvas (source line 26):
((new_w - w) // 2, (new_h - h) // 2). -/
def paste_pos (w h : Nat) : Nat × Nat :=
  (((fit_to_aspect w h).1 - w) / 2, ((fit_to_aspect w h).2 - h) / 2)

/-- For a nonzero height the rational model of fit_to_aspect reduces to
integer arithmetic. -/
lemma fit_to_aspect_eq (w h : Nat) (hh : 0 < h) :
    fit_to_aspect w h = if 2 * h < w then (w, w / 2) else (2 * h, h) := by
  have hq : (((w : ℚ) / (h : ℚ)) > 2) ↔ 2 * h < w := by
    rw [gt_iff_lt, lt_div_iff₀ (by exact_mod_cast hh)]
    constructor
    · intro hlt
      exact_mod_cast hlt
    · intro hlt
      exact_mod_cast hlt
  have h1 : Nat.floor ((w : ℚ) / 2) = w / 2 := by
    have := Nat.floor_div_nat ((w : ℚ)) 2
    rwa [Nat.floor_natCast, Nat.cast_ofNat] at this
  have h2 : Nat.floor ((h : ℚ) * 2) = 2 * h := by
    have hcast : ((h : ℚ)) * 2 = (((2 * h : ℕ)) : ℚ) := by push_cast; ring
    rw [hcast, Nat.floor_natCast]
  unfold fit_to_aspect
  by_cases hc : 2 * h < w
  · rw [if_pos (hq.mpr hc), if_pos hc, h1]
  · rw [if_neg (fun hx => hc (hq.mp hx)), if_neg hc, h2]

/-- Counterexample to C5: a 5-by-1 source is wider than 2:1, and the canvas
produced for it is 5 by 2, whose aspect ratio is 5/2, not 2. -/
theorem fit_ratio_counterexample :
    ¬ ((((fit_to_aspect 5 1).1 : ℚ) / ((fit_to_aspect 5 1).2 : ℚ)) = 2) := by
  have h : fit_to_aspect 5 1 = (5, 2) := by
    rw [fit_to_aspect_eq 5 1 (by decide)]
    norm_num
  rw [h]
  norm_num

/-- C5 (amended): for a source with nonzero height, the canvas produced by
fit_to_aspect has width/height ratio exactly 2 whenever the source is not
wider than 2:1, or its width is even; for a source strictly wider than 2:1
with odd width the height is rounded down and the ratio exceeds 2. -/
theorem fit_ratio_amended (w h : Nat) (hh : 0 < h)
    (hcond : w ≤ 2 * h ∨ w % 2 = 0) :
    (((fit_to_aspect w h).1 : ℚ) / ((fit_to_aspect w h).2 : ℚ)) = 2 := by
  rw [fit_to_aspect_eq w h hh]
  by_cases hc : 2 * h < w
  · have hev : w % 2 = 0 := by
      rcases hcond with h1 | h1
      · omega
      · exact h1
    rw [if_pos hc]
    have hw2 : ((w / 2 : ℕ) : ℚ) = (w : ℚ) / 2 := by
      rw [Nat.cast_div (by omega) (by norm_num)]
      norm_num
    have hw0 : (w : ℚ) ≠ 0 := by
      have : 0 < w := by omega
      exact_mod_cast Nat.pos_iff_ne_zero.mp this
    simp only [hw2]
    rw [div_div_eq_mul_div, mul_comm, mul_div_assoc, div_self hw0, mul_one]
  · rw [if_neg hc]
    have hh0 : (h : ℚ) ≠ 0 := by
      exact_mod_cast Nat.pos_iff_ne_zero.mp hh
    push_cast
    rw [mul_div_assoc, div_self hh0, mul_one]

/-- Witness for C5 (amended): a 4-by-1 source gives a canvas of ratio
exactly 2. -/
theorem fit_ratio_amended_witness :
    (((fit_to_aspect 4 1).1 : ℚ) / ((fit_to_aspect 4 1).2 : ℚ)) = 2 :=
  fit_ratio_amended 4 1 (by decide) (Or.inr (by decide))

/-- C9: for any source with nonzero dimensions, fit_to_aspect never crops:
the canvas is at least as wide and at least as tall as the source, and the
centered paste offsets keep the whole source inside the canvas. -/
theorem fit_no_crop (w h : Nat) (hw : 0 < w) (hh : 0 < h) :
    w ≤ (fit_to_aspect w h).1 ∧ h ≤ (fit_to_aspect w h).2 ∧
    (paste_pos w h).1 + w ≤ (fit_to_aspect w h).1 ∧
    (paste_pos w h).2 + h ≤ (fit_to_aspect w h).2 := by
  unfold paste_pos
  rw [fit_to_aspect_eq w h hh]
  by_cases hc : 2 * h < w
  · rw [if_pos hc]
    refine ⟨le_refl w, ?_, ?_, ?_⟩ <;> simp <;> omega
  · rw [if_neg hc]
    refine ⟨?_, le_refl h, ?_, ?_⟩ <;> simp <;> omega

/-- Witness for C9: instantiation at a 3-by-5 source. -/
theorem fit_no_crop_witness :
    3 ≤ (fit_to_aspect 3 5).1 ∧ 5 ≤ (fit_to_aspect 3 5).2 ∧
    (paste_pos 3 5).1 + 3 ≤ (fit_to_aspect 3 5).1 ∧
    (paste_pos 3 5).2 + 5 ≤ (fit_to_aspect 3 5).2 :=
  fit_no_crop 3 5 (by decide) (by decide)

/-- The successive image operations performed by the conversion pipeline,
used to state ordering properties of process_frame. -/
inductive Step
  | convertRGB
  | fitAspect
  | resize
  | dither
  | invertPolarity
  deriving DecidableEq

/-- process_frame (source lines 30-39) in execution order: convert to RGB,
fit to aspect 2.0, resize to 128x64, Floyd-Steinberg dither to 1-bit, and
invert only afterwards when requested. -/
def process_frame_steps (invert : Bool) : List Step :=
  [Step.convertRGB, Step.fitAspect, Step.resize, Step.dither] ++
    (if invert then [Step.invertPolarity] else [])

/-- The static entry point (source line 183) processes its single image by
calling process_frame with the invert flag. -/
def static_path_steps (invert : Bool) : List Step := process_frame_steps invert

/-- The animated entry point (source line 156) processes every frame by
calling process_frame with the invert flag. -/
def animated_path_steps (invert : Bool) : List Step := process_frame_steps invert

/-- Counterexample to C6: with inversion requested, the static path does
not invert before fitting/resizing/dithering; dithering precedes the
polarity flip, and the static and animated call sites perform exactly the
same steps. -/
theorem invert_order_counterexample :
    ¬ ((static_path_steps true).indexOf Step.invertPolarity <
        (static_path_steps true).indexOf Step.fitAspect) ∧
    (static_path_steps true).indexOf Step.dither <
      (static_path_steps true).indexOf Step.invertPolarity ∧
    static_path_steps true = animated_path_steps true := by
  refine ⟨by decide, by decide, rfl⟩

/-- C6 (amended): when inversion is requested, both the static and the
animated entry points apply the polarity flip after dithering, through the
same process_frame helper; the two call sites do not differ in this
ordering. -/
theorem invert_after_dither_both_paths (invert : Bool) :
    static_path_steps invert = animated_path_steps invert ∧
    (static_path_steps true).indexOf Step.dither <
      (static_path_steps true).indexOf Step.invertPolarity ∧
    (animated_path_steps true).indexOf Step.dither <
      (animated_path_steps true).indexOf Step.invertPolarity :=
  ⟨rfl, by decide, by decide⟩

/-- The framebuffer source formats selectable with the --format flag. -/
inductive Format
  | c
  | asm
  deriving DecidableEq

/-- Outcome of the CLI flag validation in main (source lines 139-143). -/
inductive CliResult
  | usageError (msg : String)
  | proceed
  deriving DecidableEq

/-- The validation performed by main before any processing (source lines
139-143): parser.error when neither --image nor --buffer is given, then
parser.error when --buffer is given without --format. -/
def cli_validate (image buffer : Bool) (format : Option Format) : CliResult :=
  if !image && !buffer then
    CliResult.usageError "Specify at least one of --image or --buffer"
  else if buffer && format.isNone then
    CliResult.usageError "--format is required when using --buffer"
  else
    CliResult.proceed

/-- C8: the CLI validation fails with a usage error exactly when neither
--image nor --buffer is given, or when --buffer is given without --format;
otherwise neither validation error is raised and processing proceeds. -/
theorem cli_validation_iff (image buffer : Bool) (format : Option Format) :
    (cli_validate image buffer format = CliResult.proceed ↔
      ((image = true ∨ buffer = true) ∧ (buffer = true → format.isSome = true))) ∧
    ((∃ msg, cli_validate image buffer format = CliResult.usageError msg) ↔
      ((image = false ∧ buffer = false) ∨ (buffer = true ∧ format = none))) := by
  cases image <;> cases buffer <;> rcases format with _ | f <;>
    simp [cli_validate]

/-- Uppercase hexadecimal digit character for a value below 16. -/
def hexDigit (n : Nat) : Char :=
  if n < 10 then Char.ofNat (48 + n) else Char.ofNat (55 + n)

/-- Repeated division by 16, most significant digit first; the fuel is an
upper bound on the digit count and the result is empty for 0. -/
def hexDigitsAux : Nat → Nat → List Char
  | 0, _ => []
  | fuel + 1, n =>
    if n = 0 then [] else hexDigitsAux fuel (n / 16) ++ [hexDigit (n % 16)]

/-- Uppercase hexadecimal digits of n (empty for 0). -/
def hexDigits (n : Nat) : List Char := hexDigitsAux n n

/-- The Python format used by every emitter for one byte: 0x followed by
the uppercase hexadecimal digits of b, zero-padded on the left to at least
two digits and never truncated. -/
def hex02X (b : Nat) : String :=
  let ds := hexDigits b
  String.mk ('0' :: 'x' :: (List.replicate (2 - ds.length) '0' ++ ds))

/-- Python str.join with separator ", ", as used by every emitter. -/
def joinComma : List String → String
  | [] => ""
  | [s] => s
  | s :: t :: rest => s ++ ", " ++ joinComma (t :: rest)

/-- Python slicing loop for i in range(0, len(fb), 16): fb[i:i+16]; the
fuel is an upper bound on the chunk count. -/
def chunksAux : Nat → List Nat → List (List Nat)
  | 0, _ => []
  | _, [] => []
  | fuel + 1, l => l.take 16 :: chunksAux fuel (l.drop 16)

/-- The 16-byte groups of a framebuffer, in order. -/
def chunks16 (fb : List Nat) : List (List Nat) := chunksAux fb.length fb

/-- One assembly byte-directive line (source lines 90-91 and 104-105). -/
def asm_byte_line (group : List Nat) : String :=
  "    .byte " ++ joinComma (group.map hex02X) ++ "\n"

/-- The fixed data-control chunk written before each animated frame
(source line 102). -/
def ctrl_byte_chunk : String :=
  "    .byte 0x40                       // Data control byte\n"

/-- write_asm_static (source lines 87-91) as the ordered list of strings
passed to f.write. -/
def write_asm_static (fb : List Nat) : List String :=
  (chunks16 fb).map asm_byte_line

/-- write_asm_animated (source lines 94-105) as the ordered list of strings
passed to f.write. -/
def write_asm_animated (frames : List (List Nat)) (durations : List Nat) :
    List String :=
  ["n_frames: .hword " ++ toString frames.length ++ "\n\n",
   "frame_durations:\n",
   "    .hword " ++ joinComma (durations.map toString) ++ "\n"]
  ++ frames.enum.flatMap fun p =>
      ("\nframe_" ++ toString p.1 ++ ":\n") :: ctrl_byte_chunk ::
        (chunks16 p.2).map asm_byte_line

/-- One C array-content line of write_c_static (source lines 62-64). -/
def c_static_line (group : List Nat) : String :=
  "    " ++ joinComma (group.map hex02X) ++ ",\n"

/-- write_c_static (source lines 58-65) as the ordered list of strings
passed to f.write. -/
def write_c_static (fb : List Nat) : List String :=
  ["#include <stdint.h>\n\n",
   "const uint8_t framebuffer[" ++ toString FRAMEBUFFER_SIZE ++ "] = \x7b\n"]
  ++ (chunks16 fb).map c_static_line
  ++ ["\x7d;\n"]

/-- One C array-content line of write_c_animated (source lines 80-82). -/
def c_animated_line (group : List Nat) : String :=
  "        " ++ joinComma (group.map hex02X) ++ ",\n"

/-- write_c_animated (source lines 68-84) as the ordered list of strings
passed to f.write. -/
def write_c_animated (frames : List (List Nat)) (durations : List Nat) :
    List String :=
  ["#include <stdint.h>\n\n",
   "#define N_FRAMES " ++ toString frames.length ++ "\n\n",
   "const uint16_t frame_durations[N_FRAMES] = \x7b\n    ",
   joinComma (durations.map toString),
   "\n\x7d;\n\n",
   "const uint8_t framebuffer[N_FRAMES][1024] = \x7b\n"]
  ++ (frames.flatMap fun fb =>
      "    \x7b\n" :: ((chunks16 fb).map c_animated_line ++ ["    \x7d,\n"]))
  ++ ["\x7d;\n"]

/-- Hex digit characters are never a slash. -/
lemma hexDigit_ne_slash (n : Nat) (h : n < 16) : hexDigit n ≠ '/' := by
  interval_cases n <;> decide

/-- No slash occurs among hexadecimal digits. -/
lemma slash_not_mem_hexDigitsAux (fuel n : Nat) : '/' ∉ hexDigitsAux fuel n := by
  induction fuel generalizing n with
  | zero => simp [hexDigitsAux]
  | succ k ih =>
    simp only [hexDigitsAux]
    split
    · simp
    · intro hmem
      rcases List.mem_append.mp hmem with h | h
      · exact ih (n / 16) h
      · have hd := hexDigit_ne_slash (n % 16) (Nat.mod_lt _ (by decide))
        exact hd (List.mem_singleton.mp h).symm

/-- No slash occurs in a formatted byte. -/
lemma slash_not_mem_hex02X (b : Nat) : '/' ∉ (hex02X b).data := by
  unfold hex02X
  intro hmem
  rcases List.mem_cons.mp hmem with h | h
  · exact absurd h (by decide)
  rcases List.mem_cons.mp h with h | h
  · exact absurd h (by decide)
  rcases List.mem_append.mp h with h | h
  · exact absurd (List.mem_replicate.mp h).2 (by decide)
  · exact slash_not_mem_hexDigitsAux _ _ h

/-- No slash occurs in a comma-joined list of slash-free strings. -/
lemma slash_not_mem_joinComma (l : List String) (h : ∀ s ∈ l, '/' ∉ s.data) :
    '/' ∉ (joinComma l).data := by
  induction l with
  | nil => decide
  | cons s rest ih =>
    cases rest with
    | nil => simpa [joinComma] using h s (by simp)
    | cons t ts =>
      simp only [joinComma]
      rw [String.data_append, String.data_append]
      intro hmem
      rcases List.mem_append.mp hmem with h1 | h1
      · rcases List.mem_append.mp h1 with h2 | h2
        · exact h s (by simp) h2
        · exact absurd h2 (by decide)
      · exact ih (fun u hu => h u (by simp [hu])) h1

/-- The decimal digit characters are never a slash. -/
lemma digitChar_ne_slash (n : Nat) (h : n < 10) : Nat.digitChar n ≠ '/' := by
  interval_cases n <;> decide

/-- No slash occurs in the output of the decimal formatting loop. -/
lemma slash_not_mem_toDigitsCore (fuel n : Nat) (ds : List Char)
    (hds : '/' ∉ ds) : '/' ∉ Nat.toDigitsCore 10 fuel n ds := by
  induction fuel generalizing n ds with
  | zero => simpa [Nat.toDigitsCore] using hds
  | succ k ih =>
    simp only [Nat.toDigitsCore]
    split
    · intro hmem
      rcases List.mem_cons.mp hmem with h | h
      · exact digitChar_ne_slash _ (Nat.mod_lt _ (by decide)) h.symm
      · exact hds h
    · refine ih _ _ ?_
      intro hmem
      rcases List.mem_cons.mp hmem with h | h
      · exact digitChar_ne_slash _ (Nat.mod_lt _ (by decide)) h.symm
      · exact hds h

/-- No slash occurs in the decimal rendering of a natural number. -/
lemma slash_not_mem_toString_nat (n : Nat) : '/' ∉ (toString n).data := by
  have hdata : (toString n).data = Nat.toDigitsCore 10 (n + 1) n [] := rfl
  rw [hdata]
  exact slash_not_mem_toDigitsCore (n + 1) n [] (by simp)

/-- The control chunk contains a slash. -/
lemma slash_mem_ctrl : '/' ∈ ctrl_byte_chunk.data := by decide

/-- A slash-free string is never the control chunk. -/
lemma ne_ctrl_of_no_slash {s : String} (h : '/' ∉ s.data) :
    s ≠ ctrl_byte_chunk := fun he => h (he ▸ slash_mem_ctrl)

/-- Assembly data lines are built only from hex bytes, so they contain no
slash. -/
lemma slash_not_mem_asm_byte_line (group : List Nat) :
    '/' ∉ (asm_byte_line group).data := by
  unfold asm_byte_line
  rw [String.data_append, String.data_append]
  intro hmem
  rcases List.mem_append.mp hmem with h | h
  · rcases List.mem_append.mp h with h1 | h1
    · exact absurd h1 (by decide)
    · refine slash_not_mem_joinComma _ ?_ h1
      intro s hs
      rcases List.mem_map.mp hs with ⟨b, _, rfl⟩
      exact slash_not_mem_hex02X b
  · exact absurd h (by decide)

/-- C data lines of the static emitter contain no slash. -/
lemma slash_not_mem_c_static_line (group : List Nat) :
    '/' ∉ (c_static_line group).data := by
  unfold c_static_line
  rw [String.data_append, String.data_append]
  intro hmem
  rcases List.mem_append.mp hmem with h | h
  · rcases List.mem_append.mp h with h1 | h1
    · exact absurd h1 (by decide)
    · refine slash_not_mem_joinComma _ ?_ h1
      intro s hs
      rcases List.mem_map.mp hs with ⟨b, _, rfl⟩
      exact slash_not_mem_hex02X b
  · exact absurd h (by decide)

/-- C data lines of the animated emitter contain no slash. -/
lemma slash_not_mem_c_animated_line (group : List Nat) :
    '/' ∉ (c_animated_line group).data := by
  unfold c_animated_line
  rw [String.data_append, String.data_append]
  intro hmem
  rcases List.mem_append.mp hmem with h | h
  · rcases List.mem_append.mp h with h1 | h1
    · exact absurd h1 (by decide)
    · refine slash_not_mem_joinComma _ ?_ h1
      intro s hs
      rcases List.mem_map.mp hs with ⟨b, _, rfl⟩
      exact slash_not_mem_hex02X b
  · exact absurd h (by decide)

/-- The static assembly emitter never writes the control chunk. -/
lemma ctrl_not_in_asm_static (fb : List Nat) :
    ctrl_byte_chunk ∉ write_asm_static fb := by
  unfold write_asm_static
  intro hmem
  rcases List.mem_map.mp hmem with ⟨g, _, hg⟩
  exact ne_ctrl_of_no_slash (slash_not_mem_asm_byte_line g) hg

/-- The static C emitter never writes the control chunk. -/
lemma ctrl_not_in_c_static (fb : List Nat) :
    ctrl_byte_chunk ∉ write_c_static fb := by
  unfold write_c_static
  intro hmem
  rcases List.mem_append.mp hmem with h | h
  · rcases List.mem_append.mp h with h1 | h1
    · rcases List.mem_cons.mp h1 with h2 | h2
      · exact absurd h2 (by decide)
      · rcases List.mem_singleton.mp h2 with h3
        exact absurd h3 (by decide)
    · rcases List.mem_map.mp h1 with ⟨g, _, hg⟩
      exact ne_ctrl_of_no_slash (slash_not_mem_c_static_line g) hg
  · exact absurd (List.mem_singleton.mp h) (by decide)

/-- The animated C emitter never writes the control chunk, for any frames
and durations. -/
lemma ctrl_not_in_c_animated (frames : List (List Nat)) (durations : List Nat) :
    ctrl_byte_chunk ∉ write_c_animated frames durations := by
  unfold write_c_animated
  intro hmem
  rcases List.mem_append.mp hmem with h | h
  · rcases List.mem_append.mp h with h1 | h1
    · rcases List.mem_cons.mp h1 with h2 | h2
      · exact absurd h2 (by decide)
      rcases List.mem_cons.mp h2 with h3 | h3
      · refine ne_ctrl_of_no_slash ?_ h3.symm
        rw [String.data_append, String.data_append]
        intro hm
        rcases List.mem_append.mp hm with hx | hx
        · rcases List.mem_append.mp hx with hy | hy
          · exact absurd hy (by decide)
          · exact slash_not_mem_toString_nat _ hy
        · exact absurd hx (by decide)
      rcases List.mem_cons.mp h3 with h4 | h4
      · exact absurd h4 (by decide)
      rcases List.mem_cons.mp h4 with h5 | h5
      · refine ne_ctrl_of_no_slash ?_ h5.symm
        refine slash_not_mem_joinComma _ ?_
        intro s hs
        rcases List.mem_map.mp hs with ⟨d, _, rfl⟩
        exact slash_not_mem_toString_nat d
      rcases List.mem_cons.mp h5 with h6 | h6
      · exact absurd h6 (by decide)
      rcases List.mem_singleton.mp h6 with h7
      exact absurd h7 (by decide)
    · rcases List.mem_flatMap.mp h1 with ⟨fb, _, hfb⟩
      rcases List.mem_cons.mp hfb with h2 | h2
      · exact absurd h2 (by decide)
      rcases List.mem_append.mp h2 with h3 | h3
      · rcases List.mem_map.mp h3 with ⟨g, _, hg⟩
        exact ne_ctrl_of_no_slash (slash_not_mem_c_animated_line g) hg
      · exact absurd (List.mem_singleton.mp h3) (by decide)
  · exact absurd (List.mem_singleton.mp h) (by decide)

/-- C7: for a 3-frame animation with durations 100, 150, 200 in assembly
buffer mode, the emitted chunk sequence declares n_frames: .hword 3, the
duration table with exactly those values in order, and three labeled frame
blocks whose pixel data is each preceded by one 0x40 data-control chunk;
moreover that control chunk is written only by the animated assembly
emitter: never by the static assembly emitter or by either C emitter. -/
theorem asm_animated_format (f0 f1 f2 : List Nat) :
    write_asm_animated [f0, f1, f2] [100, 150, 200] =
      ["n_frames: .hword 3\n\n", "frame_durations:\n", "    .hword 100, 150, 200\n"]
      ++ ("\nframe_0:\n" :: ctrl_byte_chunk :: (chunks16 f0).map asm_byte_line)
      ++ ("\nframe_1:\n" :: ctrl_byte_chunk :: (chunks16 f1).map asm_byte_line)
      ++ ("\nframe_2:\n" :: ctrl_byte_chunk :: (chunks16 f2).map asm_byte_line) ∧
    (∀ fb : List Nat, ctrl_byte_chunk ∉ write_asm_static fb) ∧
    (∀ fb : List Nat, ctrl_byte_chunk ∉ write_c_static fb) ∧
    (∀ (frames : List (List Nat)) (durations : List Nat),
      ctrl_byte_chunk ∉ write_c_animated frames durations) := by
  refine ⟨?_, ctrl_not_in_asm_static, ctrl_not_in_c_static, ctrl_not_in_c_animated⟩
  have e1 : "n_frames: .hword " ++ toString (3 : Nat) ++ "\n\n"
      = "n_frames: .hword 3\n\n" := by decide
  have e2 : "    .hword " ++ joinComma (List.map toString ([100, 150, 200] : List Nat)) ++ "\n"
      = "    .hword 100, 150, 200\n" := by decide
  have e3 : "\nframe_" ++ toString (0 : Nat) ++ ":\n" = "\nframe_0:\n" := by decide
  have e4 : "\nframe_" ++ toString (1 : Nat) ++ ":\n" = "\nframe_1:\n" := by decide
  have e5 : "\nframe_" ++ toString (2 : Nat) ++ ":\n" = "\nframe_2:\n" := by decide
  simp only [write_asm_animated, List.enum, List.enumFrom, List.flatMap_cons,
    List.flatMap_nil, List.append_nil, List.append_assoc, List.cons_append,
    List.nil_append, List.length_cons, List.length_nil]
  norm_num
  exact ⟨by decide, by decide, e3, e4, e5⟩

/-- Two-digit rendering: for any byte value the emitter format is exactly
0x followed by the two hex digits of the value. -/
lemma hex02X_two_digits :
    ∀ b, b < 256 →
      hex02X b = String.mk ['0', 'x', hexDigit (b / 16), hexDigit (b % 16)] := by
  decide

/-- C10: every framebuffer entry is below 256, and the two-digit
hexadecimal formatting used by the emitters renders it without truncation
as 0x followed by exactly its two hex digits. -/
theorem framebuffer_bytes_fit (pixels : Nat → Nat → Nat) :
    ∀ b ∈ image_to_framebuffer pixels,
      b < 256 ∧ hex02X b = String.mk ['0', 'x', hexDigit (b / 16), hexDigit (b % 16)] := by
  intro b hb
  have hlt : b < 256 := by
    rcases List.mem_flatMap.mp hb with ⟨page, _, hmem⟩
    rcases List.mem_map.mp hmem with ⟨x, _, rfl⟩
    exact packByte_lt pixels page x
  exact ⟨hlt, hex02X_two_digits b hlt⟩

/-- Witness for C10: the first checkerboard framebuffer byte, 0xAA. -/
theorem framebuffer_bytes_fit_witness :
    170 < 256 ∧
    hex02X 170 = String.mk ['0', 'x', hexDigit (170 / 16), hexDigit (170 % 16)] :=
  framebuffer_bytes_fit checker 170 (by decide)
